import Mathlib

/-!
Shallow embedding of the response-aggregation and page-state serialization
engine of `src/lib/response.js` (mcp-playwright).

Text is modelled as `List Char`; a split text is a `List (List Char)` of
lines.  JavaScript string helpers (`trim`, `trimStart`, `split('\n')`,
`join('\n')`, `startsWith`) are embedded as executable functions on
character lists.
-/

namespace McpPlaywright

/-- JS `String.prototype.trim` / `trimStart` whitespace class (embedded via
Lean's `Char.isWhitespace`; the input lines never contain the exotic cases). -/
def isWS (c : Char) : Bool := c.isWhitespace

/-- JS `line.trimStart()`. -/
def trimStartLine (l : List Char) : List Char := l.dropWhile isWS

/-- Trailing-whitespace removal, second half of JS `line.trim()`. -/
def trimEndLine (l : List Char) : List Char := (l.reverse.dropWhile isWS).reverse

/-- JS `line.trim()`. -/
def trimLine (l : List Char) : List Char := trimEndLine (trimStartLine l)

/-- Expression `line.length - line.trimStart().length` — the indentation count used by
`hasUsefulContent` (src/lib/response.js line 146). -/
def indentOf (l : List Char) : Nat := l.length - (trimStartLine l).length

/-- Regex word character `\w` = `[A-Za-z0-9_]`. -/
def isWordChar (c : Char) : Bool := c.isAlphanum || c = '_'

/-- The literal prefix tested by `trimmedLine.startsWith('- generic [ref=')`. -/
def genericPre : List Char := "- generic [ref=".toList

/-- The part of a trimmed line matched by the regex
`^- generic \[ref=\w+\]:\s*(.+)$` after the `]:` separator: `some rest` when
the line is `- generic [ref=<word+>]:<rest>`, `none` otherwise. -/
def genericRest (t : List Char) : Option (List Char) :=
  if genericPre.isPrefixOf t then
    let r := t.drop genericPre.length
    let w := r.takeWhile isWordChar
    if w.isEmpty then none
    else
      match r.drop w.length with
      | ']' :: ':' :: rest => some rest
      | _ => none
  else none

/-- The test `match && match[1].trim().length > 0` of src/lib/response.js
lines 140-143.  The regex group `match[1]` is `rest` with some leading
whitespace consumed by `\s*`; since the code only inspects
`match[1].trim()`, which equals `trimLine rest`, and the match exists iff
`rest` is non-empty, the test reduces to: the `]:` separator is present and
the text after it does not trim to nothing. -/
def hasColonText (t : List Char) : Bool :=
  match genericRest t with
  | some rest => !(trimLine rest).isEmpty
  | none => false

mutual

/-- Function `hasUsefulContent(lineIndex)` of src/lib/response.js lines 130-164.
Out-of-range indices (which would make the JS crash on
`undefined.trim()`, and which the source never produces) return `false`. -/
def hasUsefulContent (lines : List (List Char)) (lineIndex : Nat) : Bool :=
  if _h : lineIndex < lines.length then
    let line := lines.getD lineIndex []
    let trimmedLine := trimLine line
    -- If it's not a generic element, it's useful
    if ¬ genericPre.isPrefixOf trimmedLine then !trimmedLine.isEmpty
    -- If it's a generic with text after the colon, it's useful
    else if hasColonText trimmedLine then true
    -- If it's an empty generic, check if any descendant is useful
    else scanDescendants lines (indentOf line) (lineIndex + 1)
  else false
termination_by (lines.length - lineIndex) * 2 + 1

/-- The `for`-loop of src/lib/response.js lines 148-161: scan forward from
index `i` for a useful descendant of a bare node whose indentation is
`currentIndent`. -/
def scanDescendants (lines : List (List Char)) (currentIndent : Nat) (i : Nat) : Bool :=
  if _h : i < lines.length then
    let nextLine := lines.getD i []
    let nextIndent := indentOf nextLine
    -- If we've gone back to same or less indentation, stop looking
    if nextIndent ≤ currentIndent ∧ ¬ (trimLine nextLine).isEmpty then false
    -- If this descendant is useful, then the parent is useful too
    else if nextIndent > currentIndent ∧ hasUsefulContent lines i then true
    else scanDescendants lines currentIndent (i + 1)
  else false
termination_by (lines.length - i) * 2 + 2

end

/-- The keep-condition of the filter loop (src/lib/response.js line 169):
`lines[i].trim() === '' || hasUsefulContent(i)`. -/
def keep (lines : List (List Char)) (i : Nat) : Bool :=
  (trimLine (lines.getD i [])).isEmpty || hasUsefulContent lines i

/-- The filter loop of src/lib/response.js lines 167-172, starting at
index `i`. -/
def compactFrom (lines : List (List Char)) (i : Nat) : List (List Char) :=
  if _h : i < lines.length then
    if keep lines i then lines.getD i [] :: compactFrom lines (i + 1)
    else compactFrom lines (i + 1)
  else []
termination_by lines.length - i

/-- The whole filter loop. -/
def compactLines (lines : List (List Char)) : List (List Char) :=
  compactFrom lines 0

/-- JS `ariaSnapshot.split('\n')` (always returns at least one line). -/
def splitNL : List Char → List (List Char)
  | [] => [[]]
  | c :: cs =>
    if c = '\n' then [] :: splitNL cs
    else
      match splitNL cs with
      | [] => [[c]]
      | l :: rest => (c :: l) :: rest

/-- JS `result.join('\n')`. -/
def joinNL : List (List Char) → List Char
  | [] => []
  | [l] => l
  | l :: l' :: ls => l ++ '\n' :: joinNL (l' :: ls)

/-- Function `filterEmptyGenericElementsIntelligent` of src/lib/response.js
lines 126-175. -/
def filterEmptyGenericElementsIntelligent (ariaSnapshot : List Char) : List Char :=
  joinNL (compactLines (splitNL ariaSnapshot))

/-- Indentation of line `k`. -/
def indentAt (lines : List (List Char)) (k : Nat) : Nat := indentOf (lines.getD k [])

/-- Is line `k` blank (trims to nothing)? -/
def isBlankAt (lines : List (List Char)) (k : Nat) : Bool :=
  (trimLine (lines.getD k [])).isEmpty

/-- Does line `k` end the descendant scan of a bare node of indentation
`cur` — same-or-less indentation with non-blank content? -/
def breaksAt (lines : List (List Char)) (cur : Nat) (k : Nat) : Bool :=
  decide (indentAt lines k ≤ cur) && !(isBlankAt lines k)

/-- A trimmed line is a bare structural node: it has the generic-ref prefix
but no usable text after the `]:` separator. -/
def isBare (t : List Char) : Bool :=
  genericPre.isPrefixOf t && !(hasColonText t)

/-! ### Characterization of the descendant scan -/

/-- The scan loop returns `true` exactly when some later line is a scanned
descendant (strictly deeper, reached before any non-blank line of
same-or-less indentation) that is itself useful. -/
theorem scanDescendants_iff (lines : List (List Char)) (cur : Nat) :
    ∀ (n i : Nat), lines.length - i ≤ n →
      (scanDescendants lines cur i = true ↔
        ∃ j, i ≤ j ∧ j < lines.length ∧ cur < indentAt lines j ∧
          hasUsefulContent lines j = true ∧
          ∀ k, i ≤ k → k < j → indentAt lines k ≤ cur → isBlankAt lines k = true) := by
  intro n
  induction n with
  | zero =>
    intro i hi
    rw [scanDescendants.eq_def, dif_neg (by omega)]
    constructor
    · intro h; exact absurd h (by simp)
    · rintro ⟨j, hij, hjl, -⟩
      omega
  | succ n ih =>
    intro i hi
    by_cases hlt : i < lines.length
    · rw [scanDescendants.eq_def, dif_pos hlt]
      simp only []
      by_cases hbrk : indentOf (lines.getD i []) ≤ cur ∧ ¬ (trimLine (lines.getD i [])).isEmpty
      · rw [if_pos hbrk]
        constructor
        · intro h; exact absurd h (by simp)
        · rintro ⟨j, hij, hjl, hind, hu, hnb⟩
          rcases Nat.eq_or_lt_of_le hij with rfl | hij'
          · exact absurd hbrk.1 (by simpa [indentAt] using hind)
          · exact absurd (by simpa [isBlankAt] using hnb i le_rfl hij' hbrk.1) hbrk.2
      · rw [if_neg hbrk]
        by_cases hfnd : indentOf (lines.getD i []) > cur ∧ hasUsefulContent lines i = true
        · rw [if_pos hfnd]
          constructor
          · intro _
            exact ⟨i, le_rfl, hlt, by simpa [indentAt] using hfnd.1, hfnd.2,
              fun k hk hk' _ => absurd (lt_of_le_of_lt hk hk') (lt_irrefl i)⟩
          · intro _; rfl
        · rw [if_neg hfnd]
          rw [ih (i + 1) (by omega)]
          constructor
          · rintro ⟨j, hij, hjl, hind, hu, hnb⟩
            refine ⟨j, by omega, hjl, hind, hu, fun k hk hk' hkc => ?_⟩
            rcases Nat.eq_or_lt_of_le hk with rfl | hk''
            · by_contra hblank
              exact hbrk ⟨hkc, fun hb => hblank (by simpa [isBlankAt] using hb)⟩
            · exact hnb k (by omega) hk' hkc
          · rintro ⟨j, hij, hjl, hind, hu, hnb⟩
            rcases Nat.eq_or_lt_of_le hij with rfl | hij'
            · exact absurd ⟨by simpa [indentAt] using hind, hu⟩ hfnd
            · exact ⟨j, by omega, hjl, hind, hu, fun k hk hk' hkc => hnb k (by omega) hk' hkc⟩
    · rw [scanDescendants.eq_def, dif_neg hlt]
      constructor
      · intro h; exact absurd h (by simp)
      · rintro ⟨j, hij, hjl, -⟩
        omega

/-! ### The filter loop as an index filter -/

/-- The indices the filter loop keeps. -/
def keptIdx (lines : List (List Char)) : List Nat :=
  (List.range lines.length).filter (fun j => keep lines j)

theorem compactFrom_eq (lines : List (List Char)) :
    ∀ (n i : Nat), lines.length - i ≤ n →
      compactFrom lines i =
        ((List.range' i (lines.length - i)).filter (fun j => keep lines j)).map
          (fun j => lines.getD j []) := by
  intro n
  induction n with
  | zero =>
    intro i hi
    rw [compactFrom.eq_def, dif_neg (by omega)]
    have h0 : lines.length - i = 0 := by omega
    simp [h0]
  | succ n ih =>
    intro i hi
    by_cases hlt : i < lines.length
    · rw [compactFrom.eq_def, dif_pos hlt]
      have hn : lines.length - i = (lines.length - (i + 1)) + 1 := by omega
      rw [hn, List.range'_succ, List.filter_cons]
      by_cases hk : keep lines i = true
      · rw [if_pos (by simpa using hk), if_pos hk, List.map_cons, ih (i + 1) (by omega)]
      · rw [if_neg (by simpa using hk), if_neg (by simpa using hk), ih (i + 1) (by omega)]
    · rw [compactFrom.eq_def, dif_neg hlt]
      have h0 : lines.length - i = 0 := by omega
      simp [h0]

theorem compactLines_eq (lines : List (List Char)) :
    compactLines lines = (keptIdx lines).map (fun j => lines.getD j []) := by
  rw [compactLines, compactFrom_eq lines lines.length 0 (by omega), keptIdx,
    List.range_eq_range']
  simp

theorem keptIdx_pairwise (lines : List (List Char)) :
    (keptIdx lines).Pairwise (· < ·) :=
  (List.pairwise_lt_range lines.length).filter _

theorem mem_keptIdx {lines : List (List Char)} {j : Nat} :
    j ∈ keptIdx lines ↔ j < lines.length ∧ keep lines j = true := by
  simp [keptIdx, List.mem_filter, List.mem_range]

theorem keptIdx_get_lt {lines : List (List Char)} {p q : Nat}
    (hp : p < (keptIdx lines).length) (hq : q < (keptIdx lines).length) (h : p < q) :
    (keptIdx lines).get ⟨p, hp⟩ < (keptIdx lines).get ⟨q, hq⟩ :=
  List.pairwise_iff_get.mp (keptIdx_pairwise lines) ⟨p, hp⟩ ⟨q, hq⟩ h

theorem keptIdx_lt_of_get_lt {lines : List (List Char)} {p q : Nat}
    (hp : p < (keptIdx lines).length) (hq : q < (keptIdx lines).length)
    (h : (keptIdx lines).get ⟨p, hp⟩ < (keptIdx lines).get ⟨q, hq⟩) : p < q := by
  by_contra hle
  rcases Nat.eq_or_lt_of_le (Nat.le_of_not_lt hle) with heq | hlt
  · subst heq
    exact absurd h (lt_irrefl _)
  · exact absurd (keptIdx_get_lt hq hp hlt) (by omega)

theorem keptIdx_get_spec {lines : List (List Char)} {p : Nat}
    (hp : p < (keptIdx lines).length) :
    (keptIdx lines).get ⟨p, hp⟩ < lines.length ∧
      keep lines ((keptIdx lines).get ⟨p, hp⟩) = true :=
  mem_keptIdx.mp (List.get_mem _ _ _)

theorem compactLines_length (lines : List (List Char)) :
    (compactLines lines).length = (keptIdx lines).length := by
  rw [compactLines_eq, List.length_map]

theorem compactLines_getD {lines : List (List Char)} {p : Nat}
    (hp : p < (keptIdx lines).length) :
    (compactLines lines).getD p [] = lines.getD ((keptIdx lines).get ⟨p, hp⟩) [] := by
  rw [compactLines_eq]
  rw [List.getD_eq_getElem _ _ (by simpa using hp), List.getElem_map]
  rfl

theorem hasUsefulContent_eq (lines : List (List Char)) (i : Nat) (h : i < lines.length) :
    hasUsefulContent lines i =
      if ¬ genericPre.isPrefixOf (trimLine (lines.getD i []))
      then !(trimLine (lines.getD i [])).isEmpty
      else if hasColonText (trimLine (lines.getD i [])) then true
      else scanDescendants lines (indentOf (lines.getD i [])) (i + 1) := by
  rw [hasUsefulContent.eq_def, dif_pos h]

/-- Compaction preserves usefulness: a line that was useful in the input is
still useful at its new position in the compacted line list. -/
theorem hasUseful_compactLines (lines : List (List Char)) :
    ∀ (n p : Nat) (hp : p < (keptIdx lines).length),
      lines.length - (keptIdx lines).get ⟨p, hp⟩ ≤ n →
      hasUsefulContent lines ((keptIdx lines).get ⟨p, hp⟩) = true →
      hasUsefulContent (compactLines lines) p = true := by
  intro n
  induction n with
  | zero =>
    intro p hp hn _
    obtain ⟨hil, -⟩ := keptIdx_get_spec hp
    omega
  | succ n ih =>
    intro p hp hn hu
    obtain ⟨hil, -⟩ := keptIdx_get_spec hp
    have hpout : p < (compactLines lines).length := by
      rw [compactLines_length]; exact hp
    have hline := compactLines_getD hp
    rw [hasUsefulContent_eq lines _ hil] at hu
    rw [hasUsefulContent_eq _ p hpout, hline]
    by_cases hpre : genericPre.isPrefixOf (trimLine
        (lines.getD ((keptIdx lines).get ⟨p, hp⟩) [])) = true
    · rw [if_neg (not_not_intro hpre)] at hu
      rw [if_neg (not_not_intro hpre)]
      by_cases hct : hasColonText (trimLine
          (lines.getD ((keptIdx lines).get ⟨p, hp⟩) [])) = true
      · rw [if_pos hct]
      · rw [if_neg hct] at hu
        rw [if_neg hct]
        obtain ⟨j, hj1, hj2, hj3, hj4, hj5⟩ :=
          (scanDescendants_iff lines _ lines.length _ (by omega)).mp hu
        have hkj : j ∈ keptIdx lines := mem_keptIdx.mpr ⟨hj2, by simp [keep, hj4]⟩
        obtain ⟨⟨q, hq⟩, hqj⟩ := List.mem_iff_get.mp hkj
        have hIj : (keptIdx lines).get ⟨p, hp⟩ < j := by omega
        have hpq : p < q := keptIdx_lt_of_get_lt hp hq (by rw [hqj]; exact hIj)
        apply (scanDescendants_iff (compactLines lines) _
          (compactLines lines).length _ (by omega)).mpr
        refine ⟨q, by omega, by rw [compactLines_length]; exact hq, ?_, ?_, ?_⟩
        · show _ < indentAt (compactLines lines) q
          unfold indentAt
          rw [compactLines_getD hq, hqj]
          exact hj3
        · exact ih q hq (by omega) (by rw [hqj]; exact hj4)
        · intro k hk1 hk2 hkc
          have hkl : k < (keptIdx lines).length := lt_trans hk2 hq
          have h1 : (keptIdx lines).get ⟨p, hp⟩ < (keptIdx lines).get ⟨k, hkl⟩ :=
            keptIdx_get_lt hp hkl (by omega)
          have h2 : (keptIdx lines).get ⟨k, hkl⟩ < j := by
            rw [← hqj]; exact keptIdx_get_lt hkl hq hk2
          unfold indentAt at hkc
          rw [compactLines_getD hkl] at hkc
          unfold isBlankAt
          rw [compactLines_getD hkl]
          exact hj5 _ (by omega) h2 hkc
    · rw [if_pos hpre] at hu
      rw [if_pos hpre]
      exact hu

/-- Every line of the compacted list is kept again when the filter is rerun
on the compacted list. -/
theorem keep_compactLines (lines : List (List Char)) (p : Nat)
    (hp : p < (compactLines lines).length) :
    keep (compactLines lines) p = true := by
  have hp' : p < (keptIdx lines).length := by rw [← compactLines_length]; exact hp
  obtain ⟨hil, hik⟩ := keptIdx_get_spec hp'
  rw [keep] at hik ⊢
  rw [compactLines_getD hp']
  rcases Bool.or_eq_true_iff.mp hik with hb | hu
  · rw [hb]
    rfl
  · rw [hasUseful_compactLines lines lines.length p hp' (by omega) hu]
    simp

theorem compactFrom_of_all_keep (lines : List (List Char)) :
    ∀ (n i : Nat), lines.length - i ≤ n →
      (∀ k, i ≤ k → k < lines.length → keep lines k = true) →
      compactFrom lines i = lines.drop i := by
  intro n
  induction n with
  | zero =>
    intro i hi _
    rw [compactFrom.eq_def, dif_neg (by omega)]
    exact (List.drop_eq_nil_iff.mpr (by omega)).symm
  | succ n ih =>
    intro i hi hk
    by_cases hlt : i < lines.length
    · rw [compactFrom.eq_def, dif_pos hlt, if_pos (hk i le_rfl hlt),
        ih (i + 1) (by omega) (fun k h1 h2 => hk k (by omega) h2),
        List.drop_eq_getElem_cons hlt, List.getD_eq_getElem _ _ hlt]
    · rw [compactFrom.eq_def, dif_neg hlt]
      exact (List.drop_eq_nil_iff.mpr (by omega)).symm

/-- Rerunning the filter loop on its own output changes nothing. -/
theorem compactLines_idem (lines : List (List Char)) :
    compactLines (compactLines lines) = compactLines lines := by
  rw [compactLines, compactFrom_of_all_keep (compactLines lines)
    (compactLines lines).length 0 (by omega)
    (fun k _ h2 => keep_compactLines lines k h2)]
  rfl

/-! ### Split / join round trip -/

theorem splitNL_ne_nil (s : List Char) : splitNL s ≠ [] := by
  induction s with
  | nil => simp [splitNL]
  | cons c cs ih =>
    rw [splitNL]
    by_cases h : c = '\n'
    · simp [h]
    · rw [if_neg h]
      cases hs : splitNL cs with
      | nil => simp
      | cons l rest => simp

theorem no_nl_of_mem_splitNL (s : List Char) :
    ∀ l ∈ splitNL s, '\n' ∉ l := by
  induction s with
  | nil =>
    intro l hl
    rw [splitNL] at hl
    simp at hl
    simp [hl]
  | cons c cs ih =>
    intro l hl
    rw [splitNL] at hl
    by_cases h : c = '\n'
    · rw [if_pos h] at hl
      rcases List.mem_cons.mp hl with rfl | hl'
      · simp
      · exact ih l hl'
    · rw [if_neg h] at hl
      cases hs : splitNL cs with
      | nil => exact absurd hs (splitNL_ne_nil cs)
      | cons l0 rest =>
        rw [hs] at hl
        rcases List.mem_cons.mp hl with rfl | hl'
        · intro hmem
          rcases List.mem_cons.mp hmem with hc | hmem'
          · exact h hc.symm
          · exact ih l0 (by rw [hs]; exact List.mem_cons_self _ _) hmem'
        · exact ih l (by rw [hs]; exact List.mem_cons_of_mem _ hl')

theorem splitNL_of_no_nl (l : List Char) (h : '\n' ∉ l) : splitNL l = [l] := by
  induction l with
  | nil => rfl
  | cons c cs ih =>
    rw [splitNL, if_neg (fun hc => h (by simp [hc])),
      ih (fun hm => h (List.mem_cons_of_mem _ hm))]

theorem splitNL_append_nl (l t : List Char) (h : '\n' ∉ l) :
    splitNL (l ++ '\n' :: t) = l :: splitNL t := by
  induction l with
  | nil => simp [splitNL]
  | cons c cs ih =>
    rw [List.cons_append, splitNL, if_neg (fun hc => h (by simp [hc])),
      ih (fun hm => h (List.mem_cons_of_mem _ hm))]

theorem splitNL_joinNL (ls : List (List Char)) (hnl : ∀ l ∈ ls, '\n' ∉ l)
    (hne : ls ≠ []) : splitNL (joinNL ls) = ls := by
  induction ls with
  | nil => exact absurd rfl hne
  | cons l ls ih =>
    cases ls with
    | nil => exact splitNL_of_no_nl l (hnl l (List.mem_cons_self _ _))
    | cons l' rest =>
      rw [joinNL, splitNL_append_nl _ _ (hnl l (List.mem_cons_self _ _)),
        ih (fun x hx => hnl x (List.mem_cons_of_mem _ hx)) (by simp)]

theorem compactFrom_sublist (lines : List (List Char)) :
    ∀ (n i : Nat), lines.length - i ≤ n →
      (compactFrom lines i).Sublist (lines.drop i) := by
  intro n
  induction n with
  | zero =>
    intro i hi
    rw [compactFrom.eq_def, dif_neg (by omega)]
    exact List.nil_sublist _
  | succ n ih =>
    intro i hi
    by_cases hlt : i < lines.length
    · rw [compactFrom.eq_def, dif_pos hlt, List.drop_eq_getElem_cons hlt]
      by_cases hk : keep lines i = true
      · rw [if_pos hk, List.getD_eq_getElem _ _ hlt]
        exact (ih (i + 1) (by omega)).cons₂ _
      · rw [if_neg (by simpa using hk)]
        exact (ih (i + 1) (by omega)).cons _
    · rw [compactFrom.eq_def, dif_neg hlt]
      exact List.nil_sublist _

theorem compactLines_sublist (lines : List (List Char)) :
    (compactLines lines).Sublist lines := by
  have := compactFrom_sublist lines lines.length 0 (by omega)
  rw [List.drop_zero] at this
  exact this

theorem filterEmpty_nil : filterEmptyGenericElementsIntelligent [] = [] := by
  simp +decide [filterEmptyGenericElementsIntelligent, splitNL, joinNL, compactLines,
    compactFrom.eq_def, keep, trimLine, trimStartLine, trimEndLine]

/-- C2.  The accessibility-tree compactor is a pure deterministic function of
its input text (it is a Lean function of the input character list and nothing
else) and is idempotent: compacting an already-compacted text changes
nothing. -/
theorem claim_C2_compactor_idempotent :
    ∀ T : List Char,
      filterEmptyGenericElementsIntelligent (filterEmptyGenericElementsIntelligent T) =
        filterEmptyGenericElementsIntelligent T := by
  intro T
  have hfT : filterEmptyGenericElementsIntelligent T =
      joinNL (compactLines (splitNL T)) := rfl
  by_cases hout : compactLines (splitNL T) = []
  · rw [hfT, hout]
    exact filterEmpty_nil
  · have hnl : ∀ l ∈ compactLines (splitNL T), '\n' ∉ l := fun l hl =>
      no_nl_of_mem_splitNL T l ((compactLines_sublist (splitNL T)).mem hl)
    rw [hfT]
    show joinNL (compactLines (splitNL (joinNL (compactLines (splitNL T))))) = _
    rw [splitNL_joinNL _ hnl hout, compactLines_idem]

/-! ### Bare structural nodes: drop decision -/

theorem bare_not_blank {t : List Char} (hb : isBare t = true) : t.isEmpty = false := by
  rcases Bool.and_eq_true_iff.mp hb with ⟨hpre, -⟩
  cases t with
  | nil => exact absurd (List.isPrefixOf_iff_prefix.mp hpre) (by decide)
  | cons c cs => rfl

/-- A bare structural node at index `i` is dropped (its keep-condition is
`false`) exactly when no scanned descendant is useful: no later line of
strictly greater indentation that is reached before the first non-blank line
of same-or-less indentation is recursively useful. -/
theorem bare_keep_iff (lines : List (List Char)) (i : Nat) (h : i < lines.length)
    (hb : isBare (trimLine (lines.getD i [])) = true) :
    (keep lines i = false ↔
      ¬ ∃ j, i < j ∧ j < lines.length ∧ indentAt lines i < indentAt lines j ∧
        hasUsefulContent lines j = true ∧
        ∀ k, i < k → k < j → indentAt lines k ≤ indentAt lines i →
          isBlankAt lines k = true) := by
  rcases Bool.and_eq_true_iff.mp hb with ⟨hpre, hct⟩
  have hct' : hasColonText (trimLine (lines.getD i [])) = false := by
    simpa using hct
  have hkeep : keep lines i = hasUsefulContent lines i := by
    rw [keep, bare_not_blank hb, Bool.false_or]
  have hu : hasUsefulContent lines i =
      scanDescendants lines (indentOf (lines.getD i [])) (i + 1) := by
    rw [hasUsefulContent_eq lines i h, if_neg (not_not_intro hpre), if_neg (by
      rw [hct']; simp)]
  rw [hkeep, hu]
  have hiff := scanDescendants_iff lines (indentOf (lines.getD i []))
    lines.length (i + 1) (by omega)
  constructor
  · intro hfalse hex
    obtain ⟨j, hj1, hj2, hj3, hj4, hj5⟩ := hex
    have : scanDescendants lines (indentOf (lines.getD i [])) (i + 1) = true :=
      hiff.mpr ⟨j, by omega, hj2, hj3, hj4, fun k hk1 hk2 hk3 => hj5 k (by omega) hk2 hk3⟩
    rw [this] at hfalse
    exact absurd hfalse (by simp)
  · intro hnex
    rcases Bool.eq_false_or_eq_true
      (scanDescendants lines (indentOf (lines.getD i [])) (i + 1)) with ht | hf
    · obtain ⟨j, hj1, hj2, hj3, hj4, hj5⟩ := hiff.mp ht
      exact absurd ⟨j, by omega, hj2, hj3, hj4,
        fun k hk1 hk2 hk3 => hj5 k (by omega) hk2 hk3⟩ hnex
    · exact hf

/-! ### Concrete families: a chain of bare nodes over one useful leaf, and a
tree of only bare nodes -/

def bareLineStr : List Char := "- generic [ref=e1]:".toList

def textLineStr : List Char := "- text: leaf".toList

/-- Family of `N` nested bare structural nodes (depth `d` indented by `d` spaces)
wrapping one useful text leaf at depth `N`. -/
def chainLines (N : Nat) : List (List Char) :=
  (List.range N).map (fun d => List.replicate d ' ' ++ bareLineStr) ++
    [List.replicate N ' ' ++ textLineStr]

/-- Family of `N` nested bare structural nodes with no leaf content at all. -/
def onlyBareLines (N : Nat) : List (List Char) :=
  (List.range N).map (fun d => List.replicate d ' ' ++ bareLineStr)

theorem trimStartLine_pad (d : Nat) (t : List Char) :
    trimStartLine (List.replicate d ' ' ++ t) = trimStartLine t := by
  induction d with
  | zero => rfl
  | succ d ih =>
    rw [List.replicate_succ, List.cons_append, trimStartLine, List.dropWhile_cons_of_pos]
    · exact ih
    · decide

theorem trimLine_pad (d : Nat) (t : List Char) :
    trimLine (List.replicate d ' ' ++ t) = trimLine t := by
  rw [trimLine, trimLine, trimStartLine_pad]

theorem indentOf_pad (d : Nat) (t : List Char) (h : trimStartLine t = t) :
    indentOf (List.replicate d ' ' ++ t) = d := by
  rw [indentOf, trimStartLine_pad, h, List.length_append, List.length_replicate]
  omega

theorem chainLines_length (N : Nat) : (chainLines N).length = N + 1 := by
  simp [chainLines]

theorem onlyBareLines_length (N : Nat) : (onlyBareLines N).length = N := by
  simp [onlyBareLines]

theorem chainLines_getD_lt {N i : Nat} (hiN : i < N) :
    (chainLines N).getD i [] = List.replicate i ' ' ++ bareLineStr := by
  rw [chainLines, List.getD_append _ _ _ i (by simpa using hiN),
    List.getD_eq_getElem _ _ (by simpa using hiN), List.getElem_map,
    List.getElem_range]

theorem chainLines_getD_last (N : Nat) :
    (chainLines N).getD N [] = List.replicate N ' ' ++ textLineStr := by
  rw [chainLines, List.getD_append_right _ _ _ N (by simp)]
  simp

theorem onlyBareLines_getD {N i : Nat} (hiN : i < N) :
    (onlyBareLines N).getD i [] = List.replicate i ' ' ++ bareLineStr := by
  rw [onlyBareLines, List.getD_eq_getElem _ _ (by simpa using hiN),
    List.getElem_map, List.getElem_range]

theorem chainLines_indentAt {N i : Nat} (h : i ≤ N) : indentAt (chainLines N) i = i := by
  unfold indentAt
  rcases Nat.lt_or_ge i N with hlt | hge
  · rw [chainLines_getD_lt hlt, indentOf_pad _ _ (by decide)]
  · have : i = N := by omega
    subst this
    rw [chainLines_getD_last, indentOf_pad _ _ (by decide)]

theorem chain_useful (N : Nat) :
    ∀ (n i : Nat), i ≤ N → N - i ≤ n → hasUsefulContent (chainLines N) i = true := by
  intro n
  induction n with
  | zero =>
    intro i hiN hn
    have : i = N := by omega
    subst this
    rw [hasUsefulContent_eq _ i (by rw [chainLines_length]; omega),
      chainLines_getD_last, trimLine_pad,
      if_pos (by decide : ¬ genericPre.isPrefixOf (trimLine textLineStr) = true)]
    decide
  | succ n ih =>
    intro i hiN hn
    rcases Nat.lt_or_ge i N with hlt | hge
    · rw [hasUsefulContent_eq _ i (by rw [chainLines_length]; omega),
        chainLines_getD_lt hlt, trimLine_pad,
        if_neg (not_not_intro
          (by decide : genericPre.isPrefixOf (trimLine bareLineStr) = true)),
        if_neg (by decide : ¬ hasColonText (trimLine bareLineStr) = true),
        indentOf_pad _ _ (by decide)]
      apply (scanDescendants_iff _ i (chainLines N).length (i + 1) (by omega)).mpr
      refine ⟨i + 1, le_rfl, by rw [chainLines_length]; omega, ?_, ?_,
        fun k hk1 hk2 _ => absurd (lt_of_le_of_lt hk1 hk2) (lt_irrefl _)⟩
      · rw [chainLines_indentAt (by omega)]
        omega
      · exact ih (i + 1) (by omega) (by omega)
    · have : i = N := by omega
      subst this
      rw [hasUsefulContent_eq _ i (by rw [chainLines_length]; omega),
        chainLines_getD_last, trimLine_pad,
        if_pos (by decide : ¬ genericPre.isPrefixOf (trimLine textLineStr) = true)]
      decide

theorem chainLines_keep {N k : Nat} (h : k < N + 1) : keep (chainLines N) k = true := by
  rw [keep, chain_useful N N k (by omega) (by omega)]
  simp

theorem compactLines_chainLines (N : Nat) :
    compactLines (chainLines N) = chainLines N := by
  rw [compactLines, compactFrom_of_all_keep _ (chainLines N).length 0 (by omega)
    (fun k _ h2 => chainLines_keep (by rwa [chainLines_length] at h2))]
  rfl

theorem no_nl_pad_of {t : List Char} (d : Nat) (h : '\n' ∉ t) :
    '\n' ∉ List.replicate d ' ' ++ t := by
  intro hm
  rcases List.mem_append.mp hm with hr | ht
  · exact absurd (List.mem_replicate.mp hr).2 (by decide)
  · exact h ht

theorem no_nl_chainLines (N : Nat) : ∀ l ∈ chainLines N, '\n' ∉ l := by
  intro l hl
  rcases List.mem_append.mp hl with hm | hm
  · obtain ⟨d, -, rfl⟩ := List.mem_map.mp hm
    exact no_nl_pad_of d (by decide)
  · rw [List.mem_singleton.mp hm]
    exact no_nl_pad_of N (by decide)

theorem onlyBare_useless (N : Nat) :
    ∀ (n i : Nat), i < N → N - i ≤ n → hasUsefulContent (onlyBareLines N) i = false := by
  intro n
  induction n with
  | zero => intro i h1 h2; omega
  | succ n ih =>
    intro i hiN hn
    rw [hasUsefulContent_eq _ i (by rw [onlyBareLines_length]; omega),
      onlyBareLines_getD hiN, trimLine_pad,
      if_neg (not_not_intro
        (by decide : genericPre.isPrefixOf (trimLine bareLineStr) = true)),
      if_neg (by decide : ¬ hasColonText (trimLine bareLineStr) = true),
      indentOf_pad _ _ (by decide)]
    rcases Bool.eq_false_or_eq_true
      (scanDescendants (onlyBareLines N) i (i + 1)) with ht | hf
    · obtain ⟨j, hj1, hj2, -, hj4, -⟩ :=
        (scanDescendants_iff _ i (onlyBareLines N).length (i + 1) (by omega)).mp ht
      rw [onlyBareLines_length] at hj2
      rw [ih j hj2 (by omega)] at hj4
      exact absurd hj4 (by simp)
    · exact hf

theorem compactFrom_of_none_keep (lines : List (List Char)) :
    ∀ (n i : Nat), lines.length - i ≤ n →
      (∀ k, i ≤ k → k < lines.length → keep lines k = false) →
      compactFrom lines i = [] := by
  intro n
  induction n with
  | zero =>
    intro i hi _
    rw [compactFrom.eq_def, dif_neg (by omega)]
  | succ n ih =>
    intro i hi hk
    by_cases hlt : i < lines.length
    · rw [compactFrom.eq_def, dif_pos hlt, if_neg (by simp [hk i le_rfl hlt])]
      exact ih (i + 1) (by omega) (fun k h1 h2 => hk k (by omega) h2)
    · rw [compactFrom.eq_def, dif_neg hlt]

theorem onlyBare_keep_false {N k : Nat} (h : k < N) :
    keep (onlyBareLines N) k = false := by
  rw [keep, onlyBare_useless N N k h (by omega), onlyBareLines_getD h, trimLine_pad]
  decide

theorem compactLines_onlyBare (N : Nat) : compactLines (onlyBareLines N) = [] := by
  rw [compactLines, compactFrom_of_none_keep _ (onlyBareLines N).length 0 (by omega)
    (fun k _ h2 => onlyBare_keep_false (by rwa [onlyBareLines_length] at h2))]

theorem filterEmpty_chainLines (N : Nat) :
    filterEmptyGenericElementsIntelligent (joinNL (chainLines N)) =
      joinNL (chainLines N) := by
  unfold filterEmptyGenericElementsIntelligent
  rw [splitNL_joinNL _ (no_nl_chainLines N) (by simp [chainLines]),
    compactLines_chainLines]

theorem filterEmpty_onlyBare (N : Nat) :
    filterEmptyGenericElementsIntelligent (joinNL (onlyBareLines N)) = [] := by
  cases N with
  | zero => exact filterEmpty_nil
  | succ n =>
    unfold filterEmptyGenericElementsIntelligent
    rw [splitNL_joinNL _ (fun l hl => by
        obtain ⟨d, -, rfl⟩ := List.mem_map.mp hl
        exact no_nl_pad_of d (by decide))
      (by
        intro hnil
        have := onlyBareLines_length (n + 1)
        rw [hnil] at this
        simp at this),
      compactLines_onlyBare]
    rfl

theorem compactFrom_count_blank (lines : List (List Char)) (l : List Char)
    (hb : (trimLine l).isEmpty = true) :
    ∀ (n i : Nat), lines.length - i ≤ n →
      List.count l (compactFrom lines i) = List.count l (lines.drop i) := by
  intro n
  induction n with
  | zero =>
    intro i hi
    rw [compactFrom.eq_def, dif_neg (by omega),
      List.drop_eq_nil_iff.mpr (by omega)]
  | succ n ih =>
    intro i hi
    by_cases hlt : i < lines.length
    · rw [List.drop_eq_getElem_cons hlt]
      by_cases hk : keep lines i = true
      · rw [compactFrom.eq_def, dif_pos hlt, if_pos hk,
          List.getD_eq_getElem _ _ hlt, List.count_cons, List.count_cons,
          ih (i + 1) (by omega)]
      · rw [compactFrom.eq_def, dif_pos hlt, if_neg (by simpa using hk),
          ih (i + 1) (by omega), List.count_cons]
        have hne : ¬ (lines[i] == l) = true := by
          intro hbeq
          have heq : lines[i] = l := by simpa using hbeq
          have heq' : lines.getD i [] = l := by
            rw [List.getD_eq_getElem lines [] hlt]
            exact heq
          rw [keep, heq', hb] at hk
          simp at hk
        rw [if_neg hne]
        omega
    · rw [compactFrom.eq_def, dif_neg hlt, List.drop_eq_nil_iff.mpr (by omega)]

/-- C1.  A bare structural node (a `generic [ref=...]` line with no text after
its label separator) is dropped by the compactor exactly when no scanned
descendant is useful: a descendant is a following line of strictly greater
indentation, the scan ends at the first non-blank line of less-or-equal
indentation, and usefulness is the recursive `hasUsefulContent` test itself.
Moreover a chain of `N` nested bare nodes wrapping one useful leaf is retained
whole, and a tree of only nested bare nodes compacts to an empty output. -/
theorem claim_C1_bare_node_removal :
    (∀ (lines : List (List Char)) (i : Nat), i < lines.length →
      isBare (trimLine (lines.getD i [])) = true →
      (keep lines i = false ↔
        ¬ ∃ j, i < j ∧ j < lines.length ∧ indentAt lines i < indentAt lines j ∧
          hasUsefulContent lines j = true ∧
          ∀ k, i < k → k < j → indentAt lines k ≤ indentAt lines i →
            isBlankAt lines k = true)) ∧
    (∀ N : Nat, filterEmptyGenericElementsIntelligent (joinNL (chainLines N)) =
      joinNL (chainLines N)) ∧
    (∀ N : Nat, filterEmptyGenericElementsIntelligent (joinNL (onlyBareLines N)) = []) :=
  ⟨bare_keep_iff, filterEmpty_chainLines, filterEmpty_onlyBare⟩

/-- Witness for C1: a single bare generic line with no descendants is
dropped. -/
theorem claim_C1_bare_node_removal_witness :
    isBare (trimLine (["- generic [ref=e1]:".toList].getD 0 [])) = true ∧
    keep ["- generic [ref=e1]:".toList] 0 = false :=
  ⟨by decide,
    (claim_C1_bare_node_removal.1 ["- generic [ref=e1]:".toList] 0 (by decide)
      (by decide)).mpr (by
        rintro ⟨j, hj1, hj2, -⟩
        simp at hj2
        omega)⟩

/-- C6.  Compaction only deletes lines: the compacted line list is a sublist
of the input's line list (so every retained line keeps its exact bytes,
indentation and relative order), every non-blank line of the output text is a
line of the input text, and blank lines are always retained (each blank line
occurs in the output exactly as often as in the input). -/
theorem claim_C6_preservation :
    ∀ T : List Char,
      (compactLines (splitNL T)).Sublist (splitNL T) ∧
      (∀ l, l ∈ splitNL (filterEmptyGenericElementsIntelligent T) →
        (trimLine l).isEmpty = false → l ∈ splitNL T) ∧
      (∀ l : List Char, (trimLine l).isEmpty = true →
        List.count l (compactLines (splitNL T)) = List.count l (splitNL T)) := by
  intro T
  refine ⟨compactLines_sublist _, ?_, ?_⟩
  · intro l hl hnb
    by_cases hout : compactLines (splitNL T) = []
    · have : filterEmptyGenericElementsIntelligent T = [] := by
        show joinNL (compactLines (splitNL T)) = []
        rw [hout]
        rfl
      rw [this] at hl
      have : l = [] := by
        rw [show splitNL [] = [[]] from rfl] at hl
        simpa using hl
      rw [this] at hnb
      exact absurd hnb (by decide)
    · have hnl : ∀ l' ∈ compactLines (splitNL T), '\n' ∉ l' := fun l' hl' =>
        no_nl_of_mem_splitNL T l' ((compactLines_sublist (splitNL T)).mem hl')
      have : splitNL (filterEmptyGenericElementsIntelligent T) =
          compactLines (splitNL T) := by
        show splitNL (joinNL (compactLines (splitNL T))) = _
        exact splitNL_joinNL _ hnl hout
      rw [this] at hl
      exact (compactLines_sublist (splitNL T)).mem hl
  · intro l hbl
    have h1 := compactFrom_count_blank (splitNL T) l hbl (splitNL T).length 0 (by omega)
    rw [List.drop_zero] at h1
    exact h1

/-- Witness for C6: a mixed input with a blank line, a useful line and a
dropped bare line. -/
theorem claim_C6_preservation_witness :
    (compactLines (splitNL "- text: a\n\n- generic [ref=e9]:".toList)).Sublist
      (splitNL "- text: a\n\n- generic [ref=e9]:".toList) ∧
    List.count [] (compactLines (splitNL "- text: a\n\n- generic [ref=e9]:".toList)) =
      List.count [] (splitNL "- text: a\n\n- generic [ref=e9]:".toList) :=
  ⟨(claim_C6_preservation "- text: a\n\n- generic [ref=e9]:".toList).1,
    (claim_C6_preservation "- text: a\n\n- generic [ref=e9]:".toList).2.2 []
      (by decide)⟩

/-! ### The response accumulator and payload serializer
(src/lib/response.js, class `Response` and the render helpers).

The JS object holds a pointer to the shared browser context; the embedding
passes that context explicitly to the methods that read it.  JS field names
`_result`, `_code`, `_images`, `_includeSnapshot`, `_includeTabs`,
`_tabSnapshot`, `_isError` are embedded as `resultLog`, `codeLog`, `images`,
`includeSnapshot`, `includeTabs`, `tabSnapshot`, `isError`. -/

/-- One entry of `tabSnapshot.downloads`. -/
structure Download where
  suggestedFilename : String
  outputFile : String
  finished : Bool
deriving DecidableEq

/-- The captured tab snapshot consumed by `serialize`. -/
structure TabSnapshot where
  url : String
  title : String
  ariaSnapshot : List Char
  consoleMessages : List String
  downloads : List Download
  modalStates : List String
deriving DecidableEq

/-- A tab handle as `renderTabsJson` reads it: `tab.lastTitle()`,
`tab.page.url()`, `tab.isCurrentTab()`. -/
structure Tab where
  lastTitle : String
  pageUrl : String
  isCurrent : Bool
deriving DecidableEq

structure Config where
  imageResponses : String
deriving DecidableEq

/-- The browser context as the accumulator reads it. -/
structure Context where
  tabs : List Tab
  currentTab : Option Tab
  config : Config
deriving DecidableEq

/-- One image attachment: `{ data: bytes, contentType }`. -/
structure Image where
  data : List Nat
  contentType : String
deriving DecidableEq

/-- The per-invocation response accumulator (class `Response`). -/
structure Response where
  toolName : String
  toolArgs : String
  resultLog : List String := []
  codeLog : List String := []
  images : List Image := []
  includeSnapshot : Bool := false
  includeTabs : Bool := false
  tabSnapshot : Option TabSnapshot := none
  isError : Option Bool := none
deriving DecidableEq

/-- The constructor: only tool identity and arguments are set. -/
def Response.make (toolName toolArgs : String) : Response :=
  { toolName := toolName, toolArgs := toolArgs }

def Response.addResult (r : Response) (result : String) : Response :=
  { r with resultLog := r.resultLog ++ [result] }

def Response.addError (r : Response) (error : String) : Response :=
  { r with resultLog := r.resultLog ++ [error], isError := some true }

/-- The `result()` reader: the log joined with newlines. -/
def Response.result (r : Response) : String :=
  String.intercalate "\n" r.resultLog

def Response.addCode (r : Response) (code : String) : Response :=
  { r with codeLog := r.codeLog ++ [code] }

/-- The `code()` reader: the log joined with newlines. -/
def Response.code (r : Response) : String :=
  String.intercalate "\n" r.codeLog

def Response.addImage (r : Response) (image : Image) : Response :=
  { r with images := r.images ++ [image] }

def Response.setIncludeSnapshot (r : Response) : Response :=
  { r with includeSnapshot := true }

def Response.setIncludeTabs (r : Response) : Response :=
  { r with includeTabs := true }

/-- Method `finish()`: when a snapshot was requested and a current tab exists, the
asynchronous capture produces `captured` and it is stored; otherwise the
accumulator is unchanged.  (The title-refresh sweep of `finish()` writes only
to the tab objects owned by the context, never to the accumulator.) -/
def Response.finish (r : Response) (ctx : Context) (captured : TabSnapshot) : Response :=
  if r.includeSnapshot = true ∧ ctx.currentTab.isSome = true then
    { r with tabSnapshot := some captured }
  else r

/-- A loosely-typed JSON field value: the `result`/`code` payload fields hold
either an array of strings or null (and a joined rendering would be a single
string). -/
inductive JsonValue where
  | jnull
  | jstr (s : String)
  | jarr (xs : List String)
deriving DecidableEq

structure TabEntryJson where
  index : Nat
  title : String
  url : String
  isCurrent : Bool
deriving DecidableEq

structure TabsJson where
  message : Option String := none
  tabs : List TabEntryJson
deriving DecidableEq

structure DownloadJson where
  filename : String
  outputFile : String
  finished : Bool
deriving DecidableEq

structure PageStateJson where
  url : String
  title : String
  ariaSnapshot : List Char
  consoleMessages : Option (List String) := none
  downloads : Option (List DownloadJson) := none
deriving DecidableEq

structure ImageJson where
  type : String
  data : List Char
  mimeType : String
deriving DecidableEq

/-- The inner structured payload built by `serialize()`. -/
structure JsonResponse where
  toolName : String
  toolArgs : String
  isError : Option Bool
  result : JsonValue
  code : JsonValue
  tabs : Option TabsJson
  pageState : Option PageStateJson
  modalStates : Option (List String)
  images : List ImageJson
deriving DecidableEq

/-- The outer wrapper returned by `serialize()`. -/
structure Payload where
  content : JsonResponse
  isError : Option Bool
deriving DecidableEq

/-- The `trim(text, maxLength)` helper of src/lib/response.js lines 269-273. -/
def trim (text : String) (maxLength : Nat) : String :=
  if text.length ≤ maxLength then text
  else text.take maxLength ++ "..."

def base64Chars : List Char :=
  "ABCDEFGHIJKLMNOPQRSTUVWXYZabcdefghijklmnopqrstuvwxyz0123456789+/".toList

def b64c (n : Nat) : Char := base64Chars.getD n '?'

/-- JS `image.data.toString('base64')`. -/
def encodeBase64 : List Nat → List Char
  | [] => []
  | [a] => [b64c (a / 4 % 64), b64c (a % 4 * 16), '=', '=']
  | [a, b] => [b64c (a / 4 % 64), b64c (a % 4 * 16 + b / 16 % 16), b64c (b % 16 * 4), '=']
  | a :: b :: c :: rest =>
    b64c (a / 4 % 64) :: b64c (a % 4 * 16 + b / 16 % 16) ::
      b64c (b % 16 * 4 + c / 64 % 4) :: b64c (c % 64) :: encodeBase64 rest

/-- Function `renderTabSnapshotJson` of src/lib/response.js lines 177-199. -/
def renderTabSnapshotJson (tabSnapshot : TabSnapshot) : PageStateJson :=
  { url := tabSnapshot.url
    title := tabSnapshot.title
    ariaSnapshot := filterEmptyGenericElementsIntelligent tabSnapshot.ariaSnapshot
    consoleMessages :=
      if tabSnapshot.consoleMessages.length ≠ 0 then
        some (tabSnapshot.consoleMessages.map (fun message => trim message 100))
      else none
    downloads :=
      if tabSnapshot.downloads.length ≠ 0 then
        some (tabSnapshot.downloads.map (fun entry =>
          { filename := entry.suggestedFilename
            outputFile := entry.outputFile
            finished := entry.finished }))
      else none }

/-- Function `renderTabsJson` of src/lib/response.js lines 201-220. -/
def renderTabsJson (tabs : List Tab) (force : Bool) : Option TabsJson :=
  if tabs.length = 1 ∧ force = false then none
  else if tabs.length = 0 then
    some
      { message :=
          some "No open tabs. Use the \"browser_navigate\" tool to navigate to a page first.",
        tabs := [] }
  else
    some
      { message := none,
        tabs := tabs.enum.map (fun p =>
          { index := p.1, title := p.2.lastTitle, url := p.2.pageUrl,
            isCurrent := p.2.isCurrent }) }

/-- Method `serialize()` of src/lib/response.js lines 75-118. -/
def Response.serialize (r : Response) (ctx : Context) : Payload :=
  let jsonResponse : JsonResponse :=
    { toolName := r.toolName
      toolArgs := r.toolArgs
      isError := r.isError
      result := if r.resultLog.length ≠ 0 then JsonValue.jarr r.resultLog else JsonValue.jnull
      code := if r.codeLog.length ≠ 0 then JsonValue.jarr r.codeLog else JsonValue.jnull
      tabs := none
      pageState := none
      modalStates := none
      images := [] }
  -- Add tabs information
  let jsonResponse :=
    if r.includeSnapshot || r.includeTabs then
      match renderTabsJson ctx.tabs r.includeTabs with
      | some tabsData => { jsonResponse with tabs := some tabsData }
      | none => jsonResponse
    else jsonResponse
  -- Add snapshot and modal states information
  let jsonResponse :=
    match r.tabSnapshot with
    | some snap =>
      if snap.modalStates.length ≠ 0 then
        { jsonResponse with modalStates := some snap.modalStates }
      else
        { jsonResponse with pageState := some (renderTabSnapshotJson snap) }
    | none => jsonResponse
  -- Add image attachments
  let jsonResponse :=
    if ctx.config.imageResponses ≠ "omit" then
      { jsonResponse with images := r.images.map (fun image =>
          { type := "image"
            data := encodeBase64 image.data
            mimeType := image.contentType }) }
    else jsonResponse
  { content := jsonResponse, isError := r.isError }

/-- One mutating call on the accumulator's logs. -/
inductive ResponseOp where
  | addResult (s : String)
  | addError (s : String)
  | addCode (s : String)

def applyOp (r : Response) : ResponseOp → Response
  | .addResult s => r.addResult s
  | .addError s => r.addError s
  | .addCode s => r.addCode s

def applyOps (r : Response) (ops : List ResponseOp) : Response :=
  ops.foldl applyOp r

/-- Branch-free normal form of `serialize`: every payload field as a direct
function of the accumulator state and context. -/
theorem serialize_eq (r : Response) (ctx : Context) :
    r.serialize ctx =
      { content :=
        { toolName := r.toolName
          toolArgs := r.toolArgs
          isError := r.isError
          result :=
            if r.resultLog.length ≠ 0 then JsonValue.jarr r.resultLog else JsonValue.jnull
          code := if r.codeLog.length ≠ 0 then JsonValue.jarr r.codeLog else JsonValue.jnull
          tabs :=
            if r.includeSnapshot || r.includeTabs then renderTabsJson ctx.tabs r.includeTabs
            else none
          pageState :=
            match r.tabSnapshot with
            | some snap =>
              if snap.modalStates.length ≠ 0 then none else some (renderTabSnapshotJson snap)
            | none => none
          modalStates :=
            match r.tabSnapshot with
            | some snap =>
              if snap.modalStates.length ≠ 0 then some snap.modalStates else none
            | none => none
          images :=
            if ctx.config.imageResponses ≠ "omit" then
              r.images.map (fun image =>
                { type := "image", data := encodeBase64 image.data,
                  mimeType := image.contentType })
            else [] }
        isError := r.isError } := by
  simp only [Response.serialize]
  cases hts : r.tabSnapshot with
  | none =>
    cases htv : renderTabsJson ctx.tabs r.includeTabs <;>
      by_cases hin : (r.includeSnapshot || r.includeTabs) = true <;>
      by_cases himg : ctx.config.imageResponses ≠ "omit" <;>
      simp [htv, hin, himg]
  | some snap =>
    by_cases hms : snap.modalStates.length ≠ 0 <;>
    cases htv : renderTabsJson ctx.tabs r.includeTabs <;>
      by_cases hin : (r.includeSnapshot || r.includeTabs) = true <;>
      by_cases himg : ctx.config.imageResponses ≠ "omit" <;>
      simp [htv, hin, himg, hms]

theorem applyOps_isError_some_true (ops : List ResponseOp) :
    ∀ r : Response, r.isError = some true → (applyOps r ops).isError = some true := by
  induction ops with
  | nil => intro r h; exact h
  | cons op ops ih =>
    intro r h
    show (applyOps (applyOp r op) ops).isError = some true
    apply ih
    cases op <;>
      simp [applyOp, Response.addResult, Response.addError, Response.addCode, h]

/-! ### Demo values used by the witnesses -/

def demoTab : Tab :=
  { lastTitle := "Example", pageUrl := "https://example.test/", isCurrent := true }

def demoCtx : Context :=
  { tabs := [demoTab], currentTab := some demoTab,
    config := { imageResponses := "include" } }

def demoCtx2 : Context :=
  { demoCtx with currentTab := none }

def demoModalSnap : TabSnapshot :=
  { url := "https://example.test/", title := "Example",
    ariaSnapshot := "- generic [ref=e1]:".toList,
    consoleMessages := ["log line"], downloads := [],
    modalStates := ["alert dialog"] }

def demoModalResponse : Response :=
  { Response.make "browser_click" "noargs" with
    includeSnapshot := true, tabSnapshot := some demoModalSnap }

def demoSnapshotResponse : Response :=
  { Response.make "browser_snapshot" "noargs" with includeSnapshot := true }

/-! ### Claim theorems for the accumulator and serializer -/

/-- C3.  When the captured tab snapshot has any active modal states, the
payload's modalStates field carries exactly them and pageState is null,
whatever else the snapshot contains. -/
theorem claim_C3_modal_precedence :
    ∀ (r : Response) (ctx : Context) (snap : TabSnapshot),
      r.tabSnapshot = some snap → snap.modalStates ≠ [] →
      (r.serialize ctx).content.modalStates = some snap.modalStates ∧
      (r.serialize ctx).content.pageState = none := by
  intro r ctx snap hs hm
  have hlen : snap.modalStates.length ≠ 0 := by
    intro h0
    exact hm (List.eq_nil_of_length_eq_zero h0)
  constructor <;> simp [serialize_eq, hs, hlen]

/-- Witness for C3 at a concrete modal-bearing accumulator. -/
theorem claim_C3_modal_precedence_witness :
    (demoModalResponse.serialize demoCtx).content.modalStates = some ["alert dialog"] ∧
    (demoModalResponse.serialize demoCtx).content.pageState = none :=
  claim_C3_modal_precedence demoModalResponse demoCtx demoModalSnap rfl (by decide)

/-- C4.  The error flag is monotone: after one `addError`, any further
`addResult`/`addError`/`addCode` calls leave `isError` permanently `true`;
`addError` appends its line to the result log; and the serialized payload
(outer wrapper and inner content) carries the error flag. -/
theorem claim_C4_monotone_error_flag :
    ∀ (r : Response) (e : String) (ops : List ResponseOp) (ctx : Context),
      (applyOps (r.addError e) ops).isError = some true ∧
      (r.addError e).resultLog = r.resultLog ++ [e] ∧
      ((applyOps (r.addError e) ops).serialize ctx).isError = some true ∧
      ((applyOps (r.addError e) ops).serialize ctx).content.isError = some true := by
  intro r e ops ctx
  have h1 : (applyOps (r.addError e) ops).isError = some true :=
    applyOps_isError_some_true ops _ (by simp [Response.addError])
  exact ⟨h1, rfl, by simp [serialize_eq, h1], by simp [serialize_eq, h1]⟩

/-- C5.  The tabs field is non-null only when a snapshot or a tabs listing
was requested; with exactly one open tab and no explicit listing request it
is null even if a snapshot was requested; with zero open tabs (and a
request) it holds the placeholder message and an empty tab array. -/
theorem claim_C5_tabs_field :
    ∀ (r : Response) (ctx : Context),
      ((r.serialize ctx).content.tabs ≠ none →
        r.includeSnapshot = true ∨ r.includeTabs = true) ∧
      (ctx.tabs.length = 1 → r.includeTabs = false →
        (r.serialize ctx).content.tabs = none) ∧
      ((r.includeSnapshot = true ∨ r.includeTabs = true) → ctx.tabs.length = 0 →
        (r.serialize ctx).content.tabs =
          some
            { message := some
                "No open tabs. Use the \"browser_navigate\" tool to navigate to a page first.",
              tabs := [] }) := by
  intro r ctx
  refine ⟨?_, ?_, ?_⟩
  · intro hne
    cases hs : r.includeSnapshot with
    | true => exact Or.inl rfl
    | false =>
      cases ht : r.includeTabs with
      | true => exact Or.inr rfl
      | false => exact absurd (by simp [serialize_eq, hs, ht]) hne
  · intro h1 ht
    have hr : renderTabsJson ctx.tabs r.includeTabs = none := by
      rw [ht, renderTabsJson, if_pos ⟨h1, rfl⟩]
    simp [serialize_eq, hr]
  · intro hor h0
    have hne1 : ¬ (ctx.tabs.length = 1 ∧ r.includeTabs = false) := by
      rintro ⟨hc, -⟩
      omega
    have hr : renderTabsJson ctx.tabs r.includeTabs =
        some
          { message := some
              "No open tabs. Use the \"browser_navigate\" tool to navigate to a page first.",
            tabs := [] } := by
      rw [renderTabsJson, if_neg hne1, if_pos h0]
    have hin : (r.includeSnapshot || r.includeTabs) = true := by
      rcases hor with h | h <;> simp [h]
    simp [serialize_eq, hin, hr]

/-- Witness for C5: one open tab, snapshot requested, no tabs-listing
request — the tabs field is null. -/
theorem claim_C5_tabs_field_witness :
    (demoSnapshotResponse.serialize demoCtx).content.tabs = none :=
  (claim_C5_tabs_field demoSnapshotResponse demoCtx).2.1 rfl rfl

/-- Counterexample to C7 as stated: with resultLog `["a", "b"]` the payload's
result field is the array of log lines, not the single newline-joined string
that the `result()` reader produces. -/
theorem claim_C7_counterexample :
    ((((Response.make "tool" "noargs").addResult "a").addResult "b").serialize
        demoCtx).content.result = JsonValue.jarr ["a", "b"] ∧
    JsonValue.jarr ["a", "b"] ≠
      JsonValue.jstr ((((Response.make "tool" "noargs").addResult "a").addResult "b").result) := by
  constructor
  · simp [serialize_eq, Response.make, Response.addResult]
  · intro h
    cases h

/-- C7 (amended).  The result field is null exactly when the result log is
empty, and otherwise holds the log itself (an array of lines, not a joined
string); the code field behaves the same way over the code log. -/
theorem claim_C7_result_code_fields :
    ∀ (r : Response) (ctx : Context),
      ((r.serialize ctx).content.result = JsonValue.jnull ↔ r.resultLog = []) ∧
      (r.resultLog ≠ [] → (r.serialize ctx).content.result = JsonValue.jarr r.resultLog) ∧
      ((r.serialize ctx).content.code = JsonValue.jnull ↔ r.codeLog = []) ∧
      (r.codeLog ≠ [] → (r.serialize ctx).content.code = JsonValue.jarr r.codeLog) := by
  intro r ctx
  refine ⟨?_, ?_, ?_, ?_⟩
  · by_cases h : r.resultLog = [] <;> simp [serialize_eq, h]
  · intro h
    simp [serialize_eq, h]
  · by_cases h : r.codeLog = [] <;> simp [serialize_eq, h]
  · intro h
    simp [serialize_eq, h]

/-- Witness for C7 (amended) at a concrete one-line log. -/
theorem claim_C7_result_code_fields_witness :
    ((((Response.make "tool" "noargs").addResult "x").serialize demoCtx).content.result =
      JsonValue.jarr ["x"]) :=
  (claim_C7_result_code_fields ((Response.make "tool" "noargs").addResult "x") demoCtx).2.1
    (by decide)

/-- C8.  Serialization is total (it is a Lean function) and defensive: with
no captured tab snapshot both pageState and modalStates are null, and a
fresh accumulator serializes with every optional field in its null/absent
default form. -/
theorem claim_C8_defensive_serialization :
    ∀ (r : Response) (ctx : Context),
      (r.tabSnapshot = none →
        (r.serialize ctx).content.pageState = none ∧
        (r.serialize ctx).content.modalStates = none) ∧
      (∀ name args : String,
        ((Response.make name args).serialize ctx).content.result = JsonValue.jnull ∧
        ((Response.make name args).serialize ctx).content.code = JsonValue.jnull ∧
        ((Response.make name args).serialize ctx).content.tabs = none ∧
        ((Response.make name args).serialize ctx).content.pageState = none ∧
        ((Response.make name args).serialize ctx).content.modalStates = none ∧
        ((Response.make name args).serialize ctx).content.images = [] ∧
        ((Response.make name args).serialize ctx).isError = none) := by
  intro r ctx
  constructor
  · intro h
    constructor <;> simp [serialize_eq, h]
  · intro name args
    refine ⟨?_, ?_, ?_, ?_, ?_, ?_, ?_⟩ <;> simp [serialize_eq, Response.make]

/-- Witness for C8: an accumulator whose snapshot capture never ran. -/
theorem claim_C8_defensive_serialization_witness :
    ((Response.make "browser_navigate" "noargs").serialize demoCtx).content.pageState = none ∧
    ((Response.make "browser_navigate" "noargs").serialize demoCtx).content.modalStates = none :=
  (claim_C8_defensive_serialization (Response.make "browser_navigate" "noargs") demoCtx).1 rfl

/-- C9.  `finish` changes no accumulator field except `tabSnapshot`; it sets
`tabSnapshot` (to the captured snapshot) only when a snapshot was requested
and a current tab exists, and leaves it unchanged otherwise. -/
theorem claim_C9_finish_frame :
    ∀ (r : Response) (ctx : Context) (captured : TabSnapshot),
      ((r.finish ctx captured).toolName = r.toolName ∧
        (r.finish ctx captured).toolArgs = r.toolArgs ∧
        (r.finish ctx captured).resultLog = r.resultLog ∧
        (r.finish ctx captured).codeLog = r.codeLog ∧
        (r.finish ctx captured).images = r.images ∧
        (r.finish ctx captured).isError = r.isError ∧
        (r.finish ctx captured).includeSnapshot = r.includeSnapshot ∧
        (r.finish ctx captured).includeTabs = r.includeTabs) ∧
      (r.includeSnapshot = true → ctx.currentTab.isSome = true →
        (r.finish ctx captured).tabSnapshot = some captured) ∧
      (¬ (r.includeSnapshot = true ∧ ctx.currentTab.isSome = true) →
        (r.finish ctx captured).tabSnapshot = r.tabSnapshot) := by
  intro r ctx captured
  refine ⟨?_, ?_, ?_⟩
  · rw [Response.finish]
    split <;> simp
  · intro h1 h2
    rw [Response.finish, if_pos ⟨h1, h2⟩]
  · intro hn
    rw [Response.finish, if_neg hn]

/-- Witness for C9: snapshot requested and a current tab present. -/
theorem claim_C9_finish_frame_witness :
    (demoSnapshotResponse.finish demoCtx demoModalSnap).tabSnapshot =
      some demoModalSnap :=
  (claim_C9_finish_frame demoSnapshotResponse demoCtx demoModalSnap).2.1 rfl rfl

/-- C10.  `serialize` reads but never writes the accumulator (it is a Lean
function of the accumulator state), and its output depends on the context
only through the open-tab list and the image-response configuration; the
outer wrapper's error flag always equals the inner payload's. -/
theorem claim_C10_serialize_deterministic :
    ∀ (r : Response) (ctx1 ctx2 : Context),
      ctx1.tabs = ctx2.tabs →
      ctx1.config.imageResponses = ctx2.config.imageResponses →
      r.serialize ctx1 = r.serialize ctx2 ∧
      (r.serialize ctx1).isError = (r.serialize ctx1).content.isError := by
  intro r c1 c2 ht hc
  constructor
  · rw [serialize_eq, serialize_eq, ht, hc]
  · simp [serialize_eq]

/-- Witness for C10: two contexts sharing tabs and image configuration but
differing in current tab produce identical payloads. -/
theorem claim_C10_serialize_deterministic_witness :
    demoModalResponse.serialize demoCtx = demoModalResponse.serialize demoCtx2 ∧
    (demoModalResponse.serialize demoCtx).isError =
      (demoModalResponse.serialize demoCtx).content.isError :=
  claim_C10_serialize_deterministic demoModalResponse demoCtx demoCtx2 rfl rfl

end McpPlaywright
